import Mathlib

/-!
Verification development for the wst WebSocket diagnostic client
(src/main.rs).  The two command flows, `ping` and `compression`, are
embedded shallowly: network effects become explicit parameters (per
iteration, the result of the ping send and the list of incoming frame
results; the result of the final close send; the handshake response
headers), durations become natural numbers of nanoseconds (the
resolution of the Rust Instant/Duration pair), and each println of the
flow becomes an output event carrying the numeric arguments the format
string receives.
-/

namespace Wst

/-- Transport errors are abstract: only their identity matters to the flow,
which either propagates one unchanged or never sees it. -/
abbrev Err := Nat

/-- WebSocket messages, as in the tungstenite Message enum used by the code.
Payload bytes are lists of naturals. -/
inductive Message where
  | text (s : String)
  | binary (b : List Nat)
  | ping (p : List Nat)
  | pong (p : List Nat)
  | close
  | frame
  deriving DecidableEq

/-- Payload of the ping frame of iteration i: the code sends
Message::Ping(vec![(i % 256) as u8]), a single byte holding i mod 256
(the u8 cast is lossless after the mod). -/
def pingPayload (i : Nat) : List Nat := [i % 256]

/-- One println of the ping flow, with the numeric arguments its format
string receives.  probeLine carries latency.as_micros() (the printed f64
is micros / 1000.0); statsLine carries the printed count and
min/avg/max, each as_micros() of the corresponding Duration. -/
inductive OutputEvent where
  | connected (url : String)
  | probeLine (i count micros : Nat)
  | connectionClosed
  | statsHeader (url : String)
  | statsLine (count minMicros avgMicros maxMicros : Nat)
  deriving DecidableEq

/-- Whether an output event belongs to the trailing statistics block. -/
def isStatsEvent : OutputEvent → Bool
  | OutputEvent.statsHeader _ => true
  | OutputEvent.statsLine _ _ _ _ => true
  | _ => false

/-- Environment of one loop iteration: the result of ws.send of the ping
frame, and the incoming frame stream as ws.next() yields it — each item is
the Result (Ok message or Err transport error) paired with the wall-clock
nanoseconds elapsed since sent_time at the moment the item is handled
(the value sent_time.elapsed() would return in the Pong arm).  An
exhausted list models ws.next() returning None (end of stream). -/
structure IterEnv where
  sendResult : Except Err Unit
  incoming : List (Except Err Message × Nat)

/-- Outcome of the inner while-let read loop of one iteration. -/
inductive RecvOutcome where
  | gotPong (elapsedNanos : Nat)
  | streamEnded
  | transportError (e : Err)
  deriving DecidableEq

/-- The inner while-let loop: read incoming frame results in order; the
Pong arm breaks with the elapsed time, the Ok catch-all arm continues
(discarding text, binary, ping, close and raw frames), the Err arm
returns the transport error; an exhausted stream ends the loop. -/
def awaitPong : List (Except Err Message × Nat) → RecvOutcome
  | [] => RecvOutcome.streamEnded
  | (Except.ok (Message.pong _), t) :: _ => RecvOutcome.gotPong t
  | (Except.ok _, _) :: rest => awaitPong rest
  | (Except.error e, _) :: _ => RecvOutcome.transportError e

/-- Item of an incoming stream that the catch-all Ok arm discards:
an Ok message that is not a pong. -/
def isNonPongOk : Except Err Message × Nat → Bool
  | (Except.ok (Message.pong _), _) => false
  | (Except.ok _, _) => true
  | (Except.error _, _) => false

/-- Observable state of the ping flow: the latencies vector (nanoseconds),
every message handed to ws.send in order (send attempts, whether or not
the send then fails), and the println output so far. -/
structure PingState where
  latencies : List Nat
  sent : List Message
  output : List OutputEvent
  deriving DecidableEq

/-- CLI arguments of the ping subcommand (url, interval seconds, count).
count is a u32 in the code; iteration indices range over 1..=count. -/
structure PingArgs where
  url : String
  interval : Nat
  count : Nat

/-- One iteration of the for loop: tick the interval timer (no observable
effect in this model), send the ping frame for index i (the frame is
recorded as sent even when the send fails, mirroring a failed send
attempt), then run the read loop.  A transport error from either step
returns it together with the state reached; a pong appends the latency
and prints the probe line (micros = nanos / 1000, as as_micros does);
an ended stream leaves latencies and output untouched. -/
def runIter (cnt : Nat) (envI : IterEnv) (i : Nat) (st : PingState) :
    Except (Err × PingState) PingState :=
  let st1 : PingState := { st with sent := st.sent ++ [Message.ping (pingPayload i)] }
  match envI.sendResult with
  | Except.error e => Except.error (e, st1)
  | Except.ok _ =>
    match awaitPong envI.incoming with
    | RecvOutcome.transportError e => Except.error (e, st1)
    | RecvOutcome.streamEnded => Except.ok st1
    | RecvOutcome.gotPong t =>
        Except.ok { st1 with
          latencies := st1.latencies ++ [t],
          output := st1.output ++ [OutputEvent.probeLine i cnt (t / 1000)] }

/-- The for loop over the remaining iteration indices: the first error
aborts, skipping the rest. -/
def runIters (cnt : Nat) (env : Nat → IterEnv) :
    List Nat → PingState → Except (Err × PingState) PingState
  | [], st => Except.ok st
  | i :: rest, st =>
    match runIter cnt (env i) i st with
    | Except.error es => Except.error es
    | Except.ok st1 => runIters cnt env rest st1

/-- The iteration indices 1, 2, ..., cnt of the for loop `for i in 1..=count`. -/
def idxList (cnt : Nat) : List Nat := (List.range cnt).map (fun j => j + 1)

/-- State of a result, whichever side it is on. -/
def resState : Except (Err × PingState) PingState → PingState
  | Except.ok st => st
  | Except.error (_, st) => st

/-- latencies.iter().sum() over nanosecond durations. -/
def sumNanos (l : List Nat) : Nat := l.sum

/-- sum / latencies.len(): Duration division by an integer truncates at
nanosecond resolution, so the average is the floor of the mean. -/
def avgNanos (l : List Nat) : Nat := sumNanos l / l.length

/-- latencies.iter().copied().min(), None on an empty vector. -/
def minOpt : List Nat → Option Nat
  | [] => none
  | x :: xs =>
    match minOpt xs with
    | none => some x
    | some m => some (min x m)

/-- latencies.iter().copied().max(), None on an empty vector. -/
def maxOpt : List Nat → Option Nat
  | [] => none
  | x :: xs =>
    match maxOpt xs with
    | none => some x
    | some m => some (max x m)

/-- min().unwrap_or_default(): the zero Duration stands in for None. -/
def minNanos (l : List Nat) : Nat := (minOpt l).getD 0

/-- max().unwrap_or_default(): the zero Duration stands in for None. -/
def maxNanos (l : List Nat) : Nat := (maxOpt l).getD 0

/-- The two statistics printlns, with the four printed values of the
second: count and min/avg/max in whole microseconds (as_micros of the
respective Durations). -/
def statsBlock (url : String) (l : List Nat) : List OutputEvent :=
  [OutputEvent.statsHeader url,
   OutputEvent.statsLine l.length (minNanos l / 1000) (avgNanos l / 1000) (maxNanos l / 1000)]

/-- State right after connect_async succeeds and the connected line prints. -/
def initState (url : String) : PingState :=
  { latencies := [], sent := [], output := [OutputEvent.connected url] }

/-- The ping flow after a successful connect: run the loop; on its error
the whole function returns that error at once (the ? operator), printing
nothing more.  Otherwise send the close frame (closeRes is that send
attempt), print the closed line, and print the statistics block only when
the latencies vector is non-empty.  An ok result makes main exit with
status 0; an error exits non-zero. -/
def ping (args : PingArgs) (env : Nat → IterEnv) (closeRes : Except Err Unit) :
    Except Err Unit × PingState :=
  match runIters args.count env (idxList args.count) (initState args.url) with
  | Except.error (e, st) => (Except.error e, st)
  | Except.ok st =>
    let st1 : PingState := { st with sent := st.sent ++ [Message.close] }
    match closeRes with
    | Except.error e => (Except.error e, st1)
    | Except.ok _ =>
      let st2 : PingState := { st1 with output := st1.output ++ [OutputEvent.connectionClosed] }
      if st2.latencies.isEmpty then (Except.ok (), st2)
      else (Except.ok (), { st2 with output := st2.output ++ statsBlock args.url st2.latencies })

/-- The pings among the sent messages, in order, as their payloads. -/
def sentPings (st : PingState) : List (List Nat) :=
  st.sent.filterMap (fun m =>
    match m with
    | Message.ping p => some p
    | _ => none)

/-- Whether a message is a close frame. -/
def isCloseMsg : Message → Bool
  | Message.close => true
  | _ => false

/-- How many close frames were handed to ws.send. -/
def closeCount (st : PingState) : Nat := (st.sent.filter isCloseMsg).length

/-- An iteration whose send succeeds and whose read loop does not hit a
transport error (it finds a pong or the stream ends). -/
def iterSucceeds (envI : IterEnv) : Prop :=
  envI.sendResult = Except.ok () ∧
  ∀ e, awaitPong envI.incoming ≠ RecvOutcome.transportError e

/-- Decimal digits a fixed-point rendering of micros / 1000 would carry
after the point: thousandths of a millisecond. -/
def fracPart3 (micros : Nat) : List Nat :=
  [micros % 1000 / 100, micros % 1000 / 10 % 10, micros % 1000 % 10]

/-- Drop trailing zero digits, as the default f64 Display does. -/
def stripTrailingZeros (ds : List Nat) : List Nat :=
  (ds.reverse.dropWhile (fun d => d == 0)).reverse

/-- Fractional digits shown by the probe line format `{}` applied to
micros / 1000.0: the exact decimal value (at most three fractional
digits) with trailing zeros omitted, and no fractional part at all for a
whole number of milliseconds.  For the magnitudes involved this is
exactly the shortest round-tripping decimal the Rust Display of f64
prints. -/
def defaultFracDigits (micros : Nat) : List Nat :=
  stripTrailingZeros (fracPart3 micros)

/-- Fractional digits shown by the summary format `{:.2}` applied to
micros / 1000.0: always exactly two digits, the value rounded to
hundredths of a millisecond.  (At an exact decimal tie, micros % 10 = 5,
the direction the f64 formatter rounds depends on the binary value; the
theorems below never evaluate a tie, and the digit count is two either
way.) -/
def fixed2FracDigits (micros : Nat) : List Nat :=
  [(micros + 5) / 10 % 100 / 10, (micros + 5) / 10 % 10]

/-- The fractional-digit groups each output event displays, one group per
formatted elapsed-time value: the probe line formats its single latency
with `{}`, the summary line formats min, avg and max with `{:.2}`. -/
def displayedFracDigits : OutputEvent → List (List Nat)
  | OutputEvent.probeLine _ _ m => [defaultFracDigits m]
  | OutputEvent.statsLine _ mn av mx =>
      [fixed2FracDigits mn, fixed2FracDigits av, fixed2FracDigits mx]
  | _ => []

/-- A handshake request: uri and header list in insertion order. -/
structure HttpRequest where
  uri : String
  headers : List (String × String)

/-- First value of a header, as HeaderMap::get returns it. -/
def getHeader (hs : List (String × String)) (k : String) : Option String :=
  (hs.find? (fun p => p.1 == k)).map (fun p => p.2)

/-- The one handshake request the compression flow builds: the code
chains exactly these seven headers onto Request::builder.  host is
url.host() with the "localhost" fallback; key is the random
Sec-WebSocket-Key the code generates. -/
def buildCompressionRequest (url host key : String) : HttpRequest :=
  { uri := url,
    headers :=
      [("Host", host),
       ("Connection", "Upgrade"),
       ("Upgrade", "websocket"),
       ("Sec-WebSocket-Version", "13"),
       ("Sec-WebSocket-Key", key),
       ("Sec-WebSocket-Extensions", "permessage-deflate")] }

/-- One println of the compression flow. -/
inductive CompEvent where
  | connected (url : String)
  | connectionClosed
  | extensionsLine (v : String)
  | noExtensionsLine
  deriving DecidableEq

/-- The compression flow after a successful connect that returned
respHeaders: print the connected line, send one close frame (closeRes is
that send attempt; on its failure the ? operator returns at once), print
the closed line, then report the Sec-WebSocket-Extensions response
header: its value when present, the no-extensions line otherwise.
Returns (result, messages sent, output). -/
def compression (url host key : String) (respHeaders : List (String × String))
    (closeRes : Except Err Unit) : Except Err Unit × List Message × List CompEvent :=
  let req := buildCompressionRequest url host key
  let _ := req
  match closeRes with
  | Except.error e => (Except.error e, [Message.close], [CompEvent.connected url])
  | Except.ok _ =>
    match getHeader respHeaders "Sec-WebSocket-Extensions" with
    | some v =>
        (Except.ok (), [Message.close],
         [CompEvent.connected url, CompEvent.connectionClosed, CompEvent.extensionsLine v])
    | none =>
        (Except.ok (), [Message.close],
         [CompEvent.connected url, CompEvent.connectionClosed, CompEvent.noExtensionsLine])

/-- Every iteration records exactly one send attempt: the ping frame for
its index, whatever the outcome. -/
theorem runIter_sent (cnt : Nat) (envI : IterEnv) (i : Nat) (st : PingState) :
    (resState (runIter cnt envI i st)).sent = st.sent ++ [Message.ping (pingPayload i)] := by
  simp only [runIter]
  cases envI.sendResult with
  | error e => simp [resState]
  | ok u => cases awaitPong envI.incoming <;> simp [resState]

/-- An iteration adds at most one output event, a probe line. -/
theorem runIter_output_mem (cnt : Nat) (envI : IterEnv) (i : Nat) (st : PingState)
    (ev : OutputEvent) (h : ev ∈ (resState (runIter cnt envI i st)).output) :
    ev ∈ st.output ∨ ∃ a b c, ev = OutputEvent.probeLine a b c := by
  simp only [runIter] at h
  rcases hs : envI.sendResult with e | u <;> rw [hs] at h
  · exact Or.inl (by simpa [resState] using h)
  · rcases ha : awaitPong envI.incoming with t | _ | e <;> rw [ha] at h
    · rcases (by simpa [resState] using h :
          ev ∈ st.output ∨ ev = OutputEvent.probeLine i cnt (t / 1000)) with h1 | h1
      · exact Or.inl h1
      · exact Or.inr ⟨i, cnt, t / 1000, h1⟩
    · exact Or.inl (by simpa [resState] using h)
    · exact Or.inl (by simpa [resState] using h)

/-- A loop that ends without error sent exactly the ping frames of its
index list, in order, after what was already sent. -/
theorem runIters_ok_sent (cnt : Nat) (env : Nat → IterEnv) (is : List Nat) :
    ∀ st st', runIters cnt env is st = Except.ok st' →
      st'.sent = st.sent ++ is.map (fun i => Message.ping (pingPayload i)) := by
  induction is with
  | nil =>
    intro st st' h
    simp only [runIters] at h
    injection h with h
    subst h
    simp
  | cons i rest ih =>
    intro st st' h
    simp only [runIters] at h
    cases hr : runIter cnt (env i) i st with
    | error es => rw [hr] at h; cases h
    | ok st1 =>
      rw [hr] at h
      have h1 : st1.sent = st.sent ++ [Message.ping (pingPayload i)] := by
        have := runIter_sent cnt (env i) i st
        rwa [hr] at this
      have h2 := ih st1 st' h
      rw [h2, h1]
      simp

/-- Every output event the loop leaves behind, on either side of the
result, was already there or is a probe line. -/
theorem runIters_output_mem (cnt : Nat) (env : Nat → IterEnv) (is : List Nat) :
    ∀ st ev, ev ∈ (resState (runIters cnt env is st)).output →
      ev ∈ st.output ∨ ∃ a b c, ev = OutputEvent.probeLine a b c := by
  induction is with
  | nil => intro st ev h; exact Or.inl (by simpa [runIters, resState] using h)
  | cons i rest ih =>
    intro st ev h
    simp only [runIters] at h
    cases hr : runIter cnt (env i) i st with
    | error es =>
      rw [hr] at h
      have h1 : ev ∈ (resState (runIter cnt (env i) i st)).output := by
        rw [hr]; exact h
      exact runIter_output_mem cnt (env i) i st ev h1
    | ok st1 =>
      rw [hr] at h
      rcases ih st1 ev h with h1 | h1
      · have h2 : ev ∈ (resState (runIter cnt (env i) i st)).output := by
          rw [hr]; exact h1
        exact runIter_output_mem cnt (env i) i st ev h2
      · exact Or.inr h1

/-- Running the loop on an appended index list runs the two parts in
sequence, the second only when the first ends without error. -/
theorem runIters_append (cnt : Nat) (env : Nat → IterEnv) (as bs : List Nat) :
    ∀ st, runIters cnt env (as ++ bs) st =
      match runIters cnt env as st with
      | Except.error es => Except.error es
      | Except.ok st1 => runIters cnt env bs st1 := by
  induction as with
  | nil => intro st; simp [runIters]
  | cons i rest ih =>
    intro st
    simp only [List.cons_append, runIters]
    cases runIter cnt (env i) i st with
    | error es => rfl
    | ok st1 => exact ih st1

/-- A transport error from the read loop makes the iteration fail with
that error, the ping send of the iteration being the only state change. -/
theorem runIter_err_recv (cnt : Nat) (envI : IterEnv) (i : Nat) (st : PingState) (e : Err)
    (hs : envI.sendResult = Except.ok ())
    (ha : awaitPong envI.incoming = RecvOutcome.transportError e) :
    runIter cnt envI i st =
      Except.error (e, { st with sent := st.sent ++ [Message.ping (pingPayload i)] }) := by
  simp only [runIter, hs, ha]

/-- An iteration whose send succeeds and whose read loop hits no
transport error ends without error. -/
theorem runIter_ok_of_succeeds (cnt : Nat) (envI : IterEnv) (i : Nat) (st : PingState)
    (h : iterSucceeds envI) : ∃ st', runIter cnt envI i st = Except.ok st' := by
  obtain ⟨hs, hna⟩ := h
  simp only [runIter, hs]
  rcases ha : awaitPong envI.incoming with t | _ | e
  · exact ⟨_, rfl⟩
  · exact ⟨_, rfl⟩
  · exact absurd ha (hna e)

/-- A loop all of whose iterations succeed ends without error. -/
theorem runIters_ok_of_succeeds (cnt : Nat) (env : Nat → IterEnv) (is : List Nat) :
    ∀ st, (∀ i ∈ is, iterSucceeds (env i)) →
      ∃ st', runIters cnt env is st = Except.ok st' := by
  induction is with
  | nil => intro st _; exact ⟨st, rfl⟩
  | cons i rest ih =>
    intro st h
    obtain ⟨st1, h1⟩ := runIter_ok_of_succeeds cnt (env i) i st (h i (by simp))
    obtain ⟨st', h2⟩ := ih st1 (fun j hj => h j (by simp [hj]))
    refine ⟨st', ?_⟩
    simp only [runIters, h1]
    exact h2

/-- min() of a non-empty vector returns an element below every element. -/
theorem minOpt_spec (l : List Nat) (h : l ≠ []) :
    ∃ m, minOpt l = some m ∧ m ∈ l ∧ ∀ x ∈ l, m ≤ x := by
  induction l with
  | nil => exact absurd rfl h
  | cons a l ih =>
    cases l with
    | nil => exact ⟨a, rfl, by simp, by simp⟩
    | cons b l2 =>
      obtain ⟨m, hm, hmem, hle⟩ := ih (by simp)
      refine ⟨min a m, ?_, ?_, ?_⟩
      · rw [minOpt, hm]
      · rcases Nat.le_total a m with hc | hc
        · rw [min_eq_left hc]; simp
        · rw [min_eq_right hc]
          exact List.mem_cons_of_mem a hmem
      · intro x hx
        rcases List.mem_cons.mp hx with h3 | h3
        · subst h3
          exact min_le_left _ _
        · exact le_trans (min_le_right a m) (hle x h3)

/-- max() of a non-empty vector returns an element above every element. -/
theorem maxOpt_spec (l : List Nat) (h : l ≠ []) :
    ∃ m, maxOpt l = some m ∧ m ∈ l ∧ ∀ x ∈ l, x ≤ m := by
  induction l with
  | nil => exact absurd rfl h
  | cons a l ih =>
    cases l with
    | nil => exact ⟨a, rfl, by simp, by simp⟩
    | cons b l2 =>
      obtain ⟨m, hm, hmem, hge⟩ := ih (by simp)
      refine ⟨max a m, ?_, ?_, ?_⟩
      · rw [maxOpt, hm]
      · rcases Nat.le_total a m with hc | hc
        · rw [max_eq_right hc]
          exact List.mem_cons_of_mem a hmem
        · rw [max_eq_left hc]; simp
      · intro x hx
        rcases List.mem_cons.mp hx with h3 | h3
        · subst h3
          exact le_max_left _ _
        · exact le_trans (hge x h3) (le_max_right a m)

/-- A lower bound of every element bounds the sum from below, length times. -/
theorem length_mul_le_sum (l : List Nat) (m : Nat) (h : ∀ x ∈ l, m ≤ x) :
    l.length * m ≤ sumNanos l := by
  induction l with
  | nil => simp [sumNanos]
  | cons a l ih =>
    have ha := h a (by simp)
    have ih2 := ih (fun x hx => h x (by simp [hx]))
    simp only [sumNanos, List.sum_cons, List.length_cons] at *
    have he : (l.length + 1) * m = l.length * m + m := by ring
    rw [he]
    linarith

/-- An upper bound of every element bounds the sum from above, length times. -/
theorem sum_le_length_mul (l : List Nat) (M : Nat) (h : ∀ x ∈ l, x ≤ M) :
    sumNanos l ≤ l.length * M := by
  induction l with
  | nil => simp [sumNanos]
  | cons a l ih =>
    have ha := h a (by simp)
    have ih2 := ih (fun x hx => h x (by simp [hx]))
    simp only [sumNanos, List.sum_cons, List.length_cons] at *
    have he : (l.length + 1) * M = l.length * M + M := by ring
    rw [he]
    linarith

/-- The truncating average is at least the minimum. -/
theorem minNanos_le_avgNanos (l : List Nat) (h : l ≠ []) : minNanos l ≤ avgNanos l := by
  obtain ⟨m, hm, _, hle⟩ := minOpt_spec l h
  have hlen : 0 < l.length := List.length_pos.mpr h
  have h1 : l.length * m ≤ sumNanos l := length_mul_le_sum l m hle
  have h2 : minNanos l = m := by simp [minNanos, hm]
  rw [h2, avgNanos, Nat.le_div_iff_mul_le hlen, Nat.mul_comm]
  exact h1

/-- The truncating average is at most the maximum. -/
theorem avgNanos_le_maxNanos (l : List Nat) (h : l ≠ []) : avgNanos l ≤ maxNanos l := by
  obtain ⟨M, hM, _, hge⟩ := maxOpt_spec l h
  have hlen : 0 < l.length := List.length_pos.mpr h
  have h1 : sumNanos l ≤ l.length * M := sum_le_length_mul l M hge
  have h2 : maxNanos l = M := by simp [maxNanos, hM]
  rw [h2, avgNanos]
  have h3 : sumNanos l / l.length ≤ l.length * M / l.length := Nat.div_le_div_right h1
  rwa [Nat.mul_div_cancel_left M hlen] at h3

/-- The loop visits cnt indices. -/
theorem idxList_length (cnt : Nat) : (idxList cnt).length = cnt := by simp [idxList]

/-- The first k loop indices of a longer run are the loop indices of a
k-iteration run. -/
theorem idxList_take (k cnt : Nat) (h : k ≤ cnt) : (idxList cnt).take k = idxList k := by
  rw [idxList, idxList, ← List.map_take, List.take_range, Nat.min_eq_left h]

/-- Splitting the index list around one index i: the part up to and
including i is itself an index list, of a bounded length. -/
theorem idxList_split (cnt : Nat) (pre : List Nat) (i : Nat) (post : List Nat)
    (h : idxList cnt = pre ++ i :: post) :
    pre ++ [i] = idxList (pre.length + 1) ∧ pre.length + 1 ≤ cnt := by
  have hlen : cnt = pre.length + 1 + post.length := by
    have h1 := congrArg List.length h
    rw [idxList_length] at h1
    simp at h1
    omega
  have hle : pre.length + 1 ≤ cnt := by omega
  refine ⟨?_, hle⟩
  have h2 : (idxList cnt).take (pre.length + 1) = pre ++ [i] := by
    rw [h]
    have h3 : pre.length + 1 = pre.length + 1 := rfl
    rw [List.take_append 1]
    simp
  rw [idxList_take (pre.length + 1) cnt hle] at h2
  exact h2.symm

/-- A loop that aborts did so at some index i: it sent the ping frames of
the indices up to and including i and nothing further. -/
theorem runIters_err_sent (cnt : Nat) (env : Nat → IterEnv) (is : List Nat) :
    ∀ st e st', runIters cnt env is st = Except.error (e, st') →
      ∃ pre i post, is = pre ++ i :: post ∧
        st'.sent = st.sent ++ (pre ++ [i]).map (fun j => Message.ping (pingPayload j)) := by
  induction is with
  | nil => intro st e st' h; simp [runIters] at h
  | cons i rest ih =>
    intro st e st' h
    simp only [runIters] at h
    cases hr : runIter cnt (env i) i st with
    | error es =>
      rw [hr] at h
      cases es with
      | mk e1 s1 =>
        injection h with h2
        injection h2 with he hs
        subst he
        subst hs
        refine ⟨[], i, rest, rfl, ?_⟩
        have h3 : s1.sent = st.sent ++ [Message.ping (pingPayload i)] := by
          have h4 := runIter_sent cnt (env i) i st
          rwa [hr] at h4
        simpa using h3
    | ok st1 =>
      rw [hr] at h
      obtain ⟨pre, j, post, hsp, hsent⟩ := ih st1 e st' h
      refine ⟨i :: pre, j, post, by simp [hsp], ?_⟩
      have h3 : st1.sent = st.sent ++ [Message.ping (pingPayload i)] := by
        have h4 := runIter_sent cnt (env i) i st
        rwa [hr] at h4
      rw [hsent, h3]
      simp

/-- No statistics event ever comes out of the loop itself. -/
theorem loop_noStats (cnt : Nat) (env : Nat → IterEnv) (is : List Nat) (url : String)
    (ev : OutputEvent) (h : ev ∈ (resState (runIters cnt env is (initState url))).output) :
    isStatsEvent ev = false := by
  rcases runIters_output_mem cnt env is (initState url) ev h with h1 | h1
  · simp [initState] at h1
    subst h1
    rfl
  · obtain ⟨a, b, c, h2⟩ := h1
    subst h2
    rfl

/-- Filtering the pings out of a list of sent ping frames recovers their
payloads. -/
theorem filterMap_ping_frames (is : List Nat) :
    List.filterMap (fun m =>
        match m with
        | Message.ping p => some p
        | _ => none)
      (is.map (fun j => Message.ping (pingPayload j))) = is.map pingPayload := by
  induction is with
  | nil => rfl
  | cons i rest ih => simp [List.filterMap_cons, ih]

/-- A list of ping frames contains no close frame. -/
theorem filter_close_ping_frames (is : List Nat) :
    List.filter isCloseMsg (is.map (fun j => Message.ping (pingPayload j))) = [] := by
  induction is with
  | nil => rfl
  | cons i rest ih => simp [List.filter_cons, isCloseMsg, ih]

/-- When the loop ends without error, the flow appends exactly one close
frame to what the loop sent, whatever happens afterwards. -/
theorem ping_sent_of_ok (args : PingArgs) (env : Nat → IterEnv) (closeRes : Except Err Unit)
    (st : PingState)
    (hloop : runIters args.count env (idxList args.count) (initState args.url) = Except.ok st) :
    (ping args env closeRes).2.sent = st.sent ++ [Message.close] := by
  cases closeRes with
  | error e => simp [ping, hloop]
  | ok u =>
    by_cases hc : st.latencies.isEmpty
    · simp [ping, hloop, hc]
    · simp [ping, hloop, hc]

/-- When the loop aborts, the flow returns the pair unchanged: the error
as its result and the loop state as the final state. -/
theorem ping_of_err (args : PingArgs) (env : Nat → IterEnv) (closeRes : Except Err Unit)
    (e : Err) (st : PingState)
    (hloop : runIters args.count env (idxList args.count) (initState args.url) =
      Except.error (e, st)) :
    ping args env closeRes = (Except.error e, st) := by
  simp only [ping, hloop]

/-- The latencies vector is whatever the loop left, on every exit path. -/
theorem ping_latencies_of_ok (args : PingArgs) (env : Nat → IterEnv)
    (closeRes : Except Err Unit) (st : PingState)
    (hloop : runIters args.count env (idxList args.count) (initState args.url) = Except.ok st) :
    (ping args env closeRes).2.latencies = st.latencies := by
  cases closeRes with
  | error e => simp [ping, hloop]
  | ok u =>
    by_cases hc : st.latencies.isEmpty
    · simp [ping, hloop, hc]
    · simp [ping, hloop, hc]

/-- An item the catch-all arm discards leaves the read loop where it was. -/
theorem awaitPong_cons (x : Except Err Message × Nat) (l : List (Except Err Message × Nat))
    (h : isNonPongOk x = true) : awaitPong (x :: l) = awaitPong l := by
  rcases x with ⟨m, t⟩
  cases m with
  | ok msg =>
    cases msg with
    | text s => rfl
    | binary b => rfl
    | ping p => rfl
    | pong p => exact absurd h (by simp [isNonPongOk])
    | close => rfl
    | frame => rfl
  | error e => exact absurd h (by simp [isNonPongOk])

/-- The read loop skips any run of discarded items and breaks at the
first pong, returning the elapsed time attached to it. -/
theorem awaitPong_after_discards (pre rest : List (Except Err Message × Nat))
    (p : List Nat) (t : Nat) (hpre : ∀ x ∈ pre, isNonPongOk x = true) :
    awaitPong (pre ++ (Except.ok (Message.pong p), t) :: rest) = RecvOutcome.gotPong t := by
  induction pre with
  | nil => rfl
  | cons x xs ih =>
    rw [List.cons_append, awaitPong_cons x _ (hpre x (by simp))]
    exact ih (fun y hy => hpre y (by simp [hy]))

/-- C1: for every non-empty sequence of recorded latencies the summary the
ping flow prints satisfies min ≤ avg ≤ max — both for the underlying
durations, with avg the (truncating) arithmetic mean sum / length, and
for the printed microsecond values — and the reported count is exactly
the length of the sequence. -/
theorem claim1_stats_min_avg_max (url : String) (l : List Nat) (h : l ≠ []) :
    minNanos l ≤ avgNanos l ∧ avgNanos l ≤ maxNanos l ∧
    statsBlock url l =
      [OutputEvent.statsHeader url,
       OutputEvent.statsLine l.length (minNanos l / 1000) (avgNanos l / 1000)
         (maxNanos l / 1000)] ∧
    minNanos l / 1000 ≤ avgNanos l / 1000 ∧ avgNanos l / 1000 ≤ maxNanos l / 1000 := by
  have h1 := minNanos_le_avgNanos l h
  have h2 := avgNanos_le_maxNanos l h
  exact ⟨h1, h2, rfl, Nat.div_le_div_right h1, Nat.div_le_div_right h2⟩

/-- C1 witness: the summary invariants at the sequence 2500, 500, 1500 ns. -/
theorem claim1_witness :
    ([2500, 500, 1500] : List Nat) ≠ [] ∧
    (minNanos [2500, 500, 1500] ≤ avgNanos [2500, 500, 1500] ∧
     avgNanos [2500, 500, 1500] ≤ maxNanos [2500, 500, 1500] ∧
     statsBlock "ws:a" [2500, 500, 1500] =
       [OutputEvent.statsHeader "ws:a",
        OutputEvent.statsLine ([2500, 500, 1500] : List Nat).length
          (minNanos [2500, 500, 1500] / 1000) (avgNanos [2500, 500, 1500] / 1000)
          (maxNanos [2500, 500, 1500] / 1000)] ∧
     minNanos [2500, 500, 1500] / 1000 ≤ avgNanos [2500, 500, 1500] / 1000 ∧
     avgNanos [2500, 500, 1500] / 1000 ≤ maxNanos [2500, 500, 1500] / 1000) :=
  ⟨by decide, claim1_stats_min_avg_max "ws:a" [2500, 500, 1500] (by decide)⟩

/-- C10: under the non-emptiness guard, min() and max() return Some of an
actual element of the latency sequence, so the unwrap_or_default zero
duration is never the reported extreme. -/
theorem claim10_minmax_elements (l : List Nat) (h : l ≠ []) :
    minOpt l = some (minNanos l) ∧ minNanos l ∈ l ∧
    maxOpt l = some (maxNanos l) ∧ maxNanos l ∈ l := by
  obtain ⟨m, hm, hmem, _⟩ := minOpt_spec l h
  obtain ⟨M, hM, hMmem, _⟩ := maxOpt_spec l h
  have h1 : minNanos l = m := by simp [minNanos, hm]
  have h2 : maxNanos l = M := by simp [maxNanos, hM]
  rw [h1, h2, hm, hM]
  exact ⟨rfl, hmem, rfl, hMmem⟩

/-- C10 witness: min and max of 1500, 700 ns are elements. -/
theorem claim10_witness :
    ([1500, 700] : List Nat) ≠ [] ∧
    (minOpt [1500, 700] = some (minNanos [1500, 700]) ∧ minNanos [1500, 700] ∈ [1500, 700] ∧
     maxOpt [1500, 700] = some (maxNanos [1500, 700]) ∧ maxNanos [1500, 700] ∈ [1500, 700]) :=
  ⟨by decide, claim10_minmax_elements [1500, 700] (by decide)⟩

/-- C2: a transport error while awaiting the pong of a reached iteration
(all earlier iterations succeeded) aborts the whole probe at once with
that error, skips every remaining iteration (nothing beyond the pings of
the completed iterations and of the failing one is ever sent — in
particular no close frame), and discards the records collected so far:
no statistics event is printed. -/
theorem claim2_transport_error_aborts (args : PingArgs) (env : Nat → IterEnv)
    (closeRes : Except Err Unit) (pre : List Nat) (i : Nat) (post : List Nat) (e : Err)
    (hsplit : idxList args.count = pre ++ i :: post)
    (hpre : ∀ j ∈ pre, iterSucceeds (env j))
    (hsend : (env i).sendResult = Except.ok ())
    (herr : awaitPong (env i).incoming = RecvOutcome.transportError e) :
    (ping args env closeRes).1 = Except.error e ∧
    (∀ ev ∈ (ping args env closeRes).2.output, isStatsEvent ev = false) ∧
    (ping args env closeRes).2.sent =
      (pre ++ [i]).map (fun j => Message.ping (pingPayload j)) := by
  obtain ⟨stP, hP⟩ := runIters_ok_of_succeeds args.count env pre (initState args.url) hpre
  have hPsent := runIters_ok_sent args.count env pre (initState args.url) stP hP
  have hloop : runIters args.count env (idxList args.count) (initState args.url) =
      Except.error (e, { stP with sent := stP.sent ++ [Message.ping (pingPayload i)] }) := by
    rw [hsplit, runIters_append, hP]
    simp only [runIters]
    rw [runIter_err_recv args.count (env i) i stP e hsend herr]
  have hping := ping_of_err args env closeRes e
    { stP with sent := stP.sent ++ [Message.ping (pingPayload i)] } hloop
  rw [hping]
  refine ⟨rfl, ?_, ?_⟩
  · intro ev hev
    have h2 : ev ∈ (resState (runIters args.count env pre (initState args.url))).output := by
      rw [hP]
      exact hev
    exact loop_noStats args.count env pre args.url ev h2
  · show stP.sent ++ [Message.ping (pingPayload i)] = _
    rw [hPsent]
    simp [initState]

/-- C2 witness: a two-iteration probe whose first receive errors aborts
with that error, prints no statistics and sends only the first ping. -/
theorem claim2_witness :
    (ping ⟨"ws:a", 1, 2⟩ (fun _ => ⟨Except.ok (), [(Except.error 7, 0)]⟩) (Except.ok ())).1 =
      Except.error 7 ∧
    (∀ ev ∈ (ping ⟨"ws:a", 1, 2⟩ (fun _ => ⟨Except.ok (), [(Except.error 7, 0)]⟩)
        (Except.ok ())).2.output, isStatsEvent ev = false) ∧
    (ping ⟨"ws:a", 1, 2⟩ (fun _ => ⟨Except.ok (), [(Except.error 7, 0)]⟩) (Except.ok ())).2.sent =
      ([] ++ [1]).map (fun j => Message.ping (pingPayload j)) :=
  claim2_transport_error_aborts ⟨"ws:a", 1, 2⟩
    (fun _ => ⟨Except.ok (), [(Except.error 7, 0)]⟩) (Except.ok ())
    [] 1 [2] 7 (by decide) (by simp) rfl rfl

/-- C3: every ping frame the flow sends carries exactly the single byte
i mod 256 for its iteration index i — over any run the pings sent are
those of indices 1..k for some k ≤ count — and in particular ping number
257 carries payload byte 1. -/
theorem claim3_ping_payload (args : PingArgs) (env : Nat → IterEnv)
    (closeRes : Except Err Unit) :
    (∃ k, k ≤ args.count ∧
      sentPings (ping args env closeRes).2 = (idxList k).map pingPayload) ∧
    (∀ i, pingPayload i = [i % 256] ∧ (pingPayload i).length = 1) ∧
    pingPayload 257 = [1] := by
  refine ⟨?_, fun i => ⟨rfl, rfl⟩, rfl⟩
  cases hloop : runIters args.count env (idxList args.count) (initState args.url) with
  | ok st =>
    refine ⟨args.count, le_refl _, ?_⟩
    have hsent := runIters_ok_sent args.count env (idxList args.count) (initState args.url) st hloop
    have hfin := ping_sent_of_ok args env closeRes st hloop
    rw [sentPings, hfin, hsent]
    simp only [initState, List.nil_append, List.filterMap_append]
    rw [filterMap_ping_frames]
    simp
  | error es =>
    cases es with
    | mk e st =>
      obtain ⟨pre, i, post, hsp, hsent⟩ :=
        runIters_err_sent args.count env (idxList args.count) (initState args.url) e st hloop
      obtain ⟨hpre, hlen⟩ := idxList_split args.count pre i post hsp
      refine ⟨pre.length + 1, hlen, ?_⟩
      have hfin := ping_of_err args env closeRes e st hloop
      rw [sentPings, hfin]
      show List.filterMap _ st.sent = _
      rw [hsent]
      simp only [initState, List.nil_append]
      rw [hpre, filterMap_ping_frames]

/-- C4: a run with count = 0 and a successful close records nothing,
succeeds (so the process exits with status 0) and prints only the
connected and closed lines — no statistics block; and on every run whose
recorded latencies are empty, for whatever reason, no statistics event
appears in the output. -/
theorem claim4_empty_no_stats (args : PingArgs) (env : Nat → IterEnv)
    (closeRes : Except Err Unit) :
    (args.count = 0 → closeRes = Except.ok () →
      ping args env closeRes =
        (Except.ok (), ⟨[], [Message.close],
          [OutputEvent.connected args.url, OutputEvent.connectionClosed]⟩)) ∧
    ((ping args env closeRes).2.latencies = [] →
      ∀ ev ∈ (ping args env closeRes).2.output, isStatsEvent ev = false) := by
  constructor
  · intro hc hcr
    subst hcr
    have h0 : idxList args.count = [] := by rw [hc]; rfl
    simp only [ping, h0, runIters]
    simp [initState]
  · intro hemp ev hev
    cases hloop : runIters args.count env (idxList args.count) (initState args.url) with
    | error es =>
      cases es with
      | mk e st =>
        have h1 := ping_of_err args env closeRes e st hloop
        rw [h1] at hev
        have h2 : ev ∈ (resState (runIters args.count env (idxList args.count)
            (initState args.url))).output := by
          rw [hloop]
          exact hev
        exact loop_noStats args.count env (idxList args.count) args.url ev h2
    | ok st =>
      have hfin := ping_latencies_of_ok args env closeRes st hloop
      rw [hfin] at hemp
      have hisE : st.latencies.isEmpty = true := by rw [hemp]; rfl
      cases closeRes with
      | error e =>
        have h1 : (ping args env (Except.error e)).2.output = st.output := by
          simp [ping, hloop]
        rw [h1] at hev
        have h2 : ev ∈ (resState (runIters args.count env (idxList args.count)
            (initState args.url))).output := by
          rw [hloop]
          exact hev
        exact loop_noStats args.count env (idxList args.count) args.url ev h2
      | ok u =>
        have h1 : (ping args env (Except.ok u)).2.output =
            st.output ++ [OutputEvent.connectionClosed] := by
          simp [ping, hloop, hisE]
        rw [h1] at hev
        rcases List.mem_append.mp hev with h3 | h3
        · have h2 : ev ∈ (resState (runIters args.count env (idxList args.count)
              (initState args.url))).output := by
            rw [hloop]
            exact h3
          exact loop_noStats args.count env (idxList args.count) args.url ev h2
        · simp at h3
          subst h3
          rfl

/-- C4 witness: count = 0 with a successful close yields exit status 0,
the two connection lines and no statistics event. -/
theorem claim4_witness :
    ping ⟨"ws:a", 1, 0⟩ (fun _ => ⟨Except.ok (), []⟩) (Except.ok ()) =
      (Except.ok (), ⟨[], [Message.close],
        [OutputEvent.connected "ws:a", OutputEvent.connectionClosed]⟩) ∧
    (∀ ev ∈ (ping ⟨"ws:a", 1, 0⟩ (fun _ => ⟨Except.ok (), []⟩) (Except.ok ())).2.output,
      isStatsEvent ev = false) :=
  ⟨(claim4_empty_no_stats ⟨"ws:a", 1, 0⟩ (fun _ => ⟨Except.ok (), []⟩) (Except.ok ())).1 rfl rfl,
   (claim4_empty_no_stats ⟨"ws:a", 1, 0⟩ (fun _ => ⟨Except.ok (), []⟩) (Except.ok ())).2 rfl⟩

/-- C8 is false of the code: on the error exit path taken when a receive
fails mid-probe the flow terminates without sending any close frame.  In
this concrete run the first receive errors, the flow aborts with that
error, and the messages handed to ws.send contain no close frame at all. -/
theorem claim8_counterexample :
    (ping ⟨"ws:a", 1, 1⟩ (fun _ => ⟨Except.ok (), [(Except.error 3, 0)]⟩) (Except.ok ())).1 =
      Except.error 3 ∧
    closeCount (ping ⟨"ws:a", 1, 1⟩ (fun _ => ⟨Except.ok (), [(Except.error 3, 0)]⟩)
      (Except.ok ())).2 = 0 :=
  ⟨rfl, rfl⟩

/-- C8 amended: the flow sends the close frame exactly once on the exit
path where every iteration completed without transport error (including
the count = 0 run), and sends no close frame at all on the error exit
path taken when a send or receive fails mid-probe — there the connection
is released only by dropping the socket, and the error becomes the
result of the flow. -/
theorem claim8_close_on_success_only (args : PingArgs) (env : Nat → IterEnv)
    (closeRes : Except Err Unit) :
    (∀ st, runIters args.count env (idxList args.count) (initState args.url) = Except.ok st →
      closeCount (ping args env closeRes).2 = 1) ∧
    (∀ e st, runIters args.count env (idxList args.count) (initState args.url) =
        Except.error (e, st) →
      closeCount (ping args env closeRes).2 = 0 ∧
      (ping args env closeRes).1 = Except.error e) := by
  constructor
  · intro st hloop
    have hsent := runIters_ok_sent args.count env (idxList args.count) (initState args.url) st hloop
    have hfin := ping_sent_of_ok args env closeRes st hloop
    rw [closeCount, hfin, hsent]
    simp only [initState, List.nil_append, List.filter_append]
    rw [filter_close_ping_frames]
    rfl
  · intro e st hloop
    have hfin := ping_of_err args env closeRes e st hloop
    obtain ⟨pre, i, post, _, hsent⟩ :=
      runIters_err_sent args.count env (idxList args.count) (initState args.url) e st hloop
    constructor
    · rw [closeCount, hfin]
      show (List.filter isCloseMsg st.sent).length = 0
      rw [hsent]
      simp only [initState, List.nil_append]
      rw [filter_close_ping_frames]
      rfl
    · rw [hfin]

/-- C8 amended witness: a one-iteration run that receives its pong sends
exactly one close frame. -/
theorem claim8_witness :
    closeCount (ping ⟨"ws:a", 1, 1⟩
      (fun _ => ⟨Except.ok (), [(Except.ok (Message.pong [1]), 500)]⟩) (Except.ok ())).2 = 1 :=
  (claim8_close_on_success_only ⟨"ws:a", 1, 1⟩
      (fun _ => ⟨Except.ok (), [(Except.ok (Message.pong [1]), 500)]⟩) (Except.ok ())).1
    ⟨[500], [Message.ping (pingPayload 1)],
     [OutputEvent.connected "ws:a", OutputEvent.probeLine 1 1 0]⟩ rfl

/-- C5: while awaiting a pong the flow reads the incoming frames in
order, discarding every well-received non-pong frame (text, binary,
ping, close or raw frame) without aborting; at the first pong it appends
the elapsed time since the send as a new record, prints the probe line,
and the loop proceeds with the remaining iteration indices (the closing
step follows when none remain). -/
theorem claim5_discard_nonpong (cnt i : Nat) (st : PingState)
    (pre rest : List (Except Err Message × Nat)) (p : List Nat) (t : Nat)
    (env : Nat → IterEnv) (is : List Nat)
    (hpre : ∀ x ∈ pre, isNonPongOk x = true)
    (henv : env i = ⟨Except.ok (), pre ++ (Except.ok (Message.pong p), t) :: rest⟩) :
    awaitPong (pre ++ (Except.ok (Message.pong p), t) :: rest) = RecvOutcome.gotPong t ∧
    runIter cnt (env i) i st = Except.ok
      { latencies := st.latencies ++ [t],
        sent := st.sent ++ [Message.ping (pingPayload i)],
        output := st.output ++ [OutputEvent.probeLine i cnt (t / 1000)] } ∧
    runIters cnt env (i :: is) st =
      runIters cnt env is
        { latencies := st.latencies ++ [t],
          sent := st.sent ++ [Message.ping (pingPayload i)],
          output := st.output ++ [OutputEvent.probeLine i cnt (t / 1000)] } := by
  have h1 := awaitPong_after_discards pre rest p t hpre
  have h2 : runIter cnt (env i) i st = Except.ok
      { latencies := st.latencies ++ [t],
        sent := st.sent ++ [Message.ping (pingPayload i)],
        output := st.output ++ [OutputEvent.probeLine i cnt (t / 1000)] } := by
    rw [henv]
    simp only [runIter, h1]
  exact ⟨h1, h2, by simp only [runIters, h2]⟩

/-- C5 witness: a text, a binary, a close, a ping and a raw frame are all
discarded before the pong whose elapsed time, 2500000 ns, is recorded and
printed as 2500 µs. -/
theorem claim5_witness :
    awaitPong ([(Except.ok (Message.text "hello"), 10), (Except.ok (Message.binary [0]), 20),
        (Except.ok Message.close, 30), (Except.ok (Message.ping [9]), 40),
        (Except.ok Message.frame, 50)] ++
        (Except.ok (Message.pong [1]), 2500000) :: []) = RecvOutcome.gotPong 2500000 ∧
    runIter 2 ((fun _ => (⟨Except.ok (),
        [(Except.ok (Message.text "hello"), 10), (Except.ok (Message.binary [0]), 20),
         (Except.ok Message.close, 30), (Except.ok (Message.ping [9]), 40),
         (Except.ok Message.frame, 50)] ++
          (Except.ok (Message.pong [1]), 2500000) :: []⟩ : IterEnv)) 1) 1 (initState "ws:a") =
      Except.ok
        { latencies := (initState "ws:a").latencies ++ [2500000],
          sent := (initState "ws:a").sent ++ [Message.ping (pingPayload 1)],
          output := (initState "ws:a").output ++ [OutputEvent.probeLine 1 2 (2500000 / 1000)] } ∧
    runIters 2 (fun _ => (⟨Except.ok (),
        [(Except.ok (Message.text "hello"), 10), (Except.ok (Message.binary [0]), 20),
         (Except.ok Message.close, 30), (Except.ok (Message.ping [9]), 40),
         (Except.ok Message.frame, 50)] ++
          (Except.ok (Message.pong [1]), 2500000) :: []⟩ : IterEnv)) [1, 2] (initState "ws:a") =
      runIters 2 (fun _ => (⟨Except.ok (),
        [(Except.ok (Message.text "hello"), 10), (Except.ok (Message.binary [0]), 20),
         (Except.ok Message.close, 30), (Except.ok (Message.ping [9]), 40),
         (Except.ok Message.frame, 50)] ++
          (Except.ok (Message.pong [1]), 2500000) :: []⟩ : IterEnv)) [2]
        { latencies := (initState "ws:a").latencies ++ [2500000],
          sent := (initState "ws:a").sent ++ [Message.ping (pingPayload 1)],
          output := (initState "ws:a").output ++ [OutputEvent.probeLine 1 2 (2500000 / 1000)] } :=
  claim5_discard_nonpong 2 1 (initState "ws:a")
    [(Except.ok (Message.text "hello"), 10), (Except.ok (Message.binary [0]), 20),
     (Except.ok Message.close, 30), (Except.ok (Message.ping [9]), 40),
     (Except.ok Message.frame, 50)] [] [1] 2500000
    (fun _ => (⟨Except.ok (),
        [(Except.ok (Message.text "hello"), 10), (Except.ok (Message.binary [0]), 20),
         (Except.ok Message.close, 30), (Except.ok (Message.ping [9]), 40),
         (Except.ok Message.frame, 50)] ++
          (Except.ok (Message.pong [1]), 2500000) :: []⟩ : IterEnv))
    [2] (by decide) rfl

/-- C9: when the incoming stream is exhausted (ws.next() returns None)
while awaiting a pong, the iteration ends without error: no record is
appended, nothing is printed, only its ping send attempt remains in the
state, and the loop silently proceeds with the next indices — any error
can then only surface from a later send or receive. -/
theorem claim9_stream_end_continues (cnt i : Nat) (envI : IterEnv) (st : PingState)
    (env : Nat → IterEnv) (is : List Nat)
    (hsend : envI.sendResult = Except.ok ())
    (hend : awaitPong envI.incoming = RecvOutcome.streamEnded)
    (henv : env i = envI) :
    runIter cnt envI i st =
      Except.ok { st with sent := st.sent ++ [Message.ping (pingPayload i)] } ∧
    runIters cnt env (i :: is) st =
      runIters cnt env is { st with sent := st.sent ++ [Message.ping (pingPayload i)] } := by
  have h2 : runIter cnt envI i st =
      Except.ok { st with sent := st.sent ++ [Message.ping (pingPayload i)] } := by
    simp only [runIter, hsend, hend]
  refine ⟨h2, ?_⟩
  rw [runIters, henv, h2]

/-- C9 witness: an immediately exhausted stream on iteration 1 of a
one-iteration run leaves only the ping send attempt and continues. -/
theorem claim9_witness :
    runIter 1 (⟨Except.ok (), []⟩ : IterEnv) 1 (initState "ws:a") =
      Except.ok { initState "ws:a" with
        sent := (initState "ws:a").sent ++ [Message.ping (pingPayload 1)] } ∧
    runIters 1 (fun _ => (⟨Except.ok (), []⟩ : IterEnv)) [1] (initState "ws:a") =
      runIters 1 (fun _ => (⟨Except.ok (), []⟩ : IterEnv)) []
        { initState "ws:a" with
          sent := (initState "ws:a").sent ++ [Message.ping (pingPayload 1)] } :=
  claim9_stream_end_continues 1 1 (⟨Except.ok (), []⟩ : IterEnv) (initState "ws:a")
    (fun _ => (⟨Except.ok (), []⟩ : IterEnv)) [] rfl rfl rfl

/-- Dropping a prefix never lengthens a list. -/
theorem length_dropWhile_le {α : Type} (p : α → Bool) (l : List α) :
    (l.dropWhile p).length ≤ l.length := by
  induction l with
  | nil => simp
  | cons a l ih =>
    rw [List.dropWhile_cons]
    split
    · exact Nat.le_succ_of_le ih
    · simp

/-- C6 is false of the code: the per-probe latency line uses the default
f64 Display, not a 2-decimal format.  In this run the pong arrives after
exactly 1000000 ns, the probe line displays 1000 µs / 1000.0 = 1.0,
which prints with no fractional digits at all rather than two ("1 ms",
where a 2-decimal rendering would show "1.00 ms"). -/
theorem claim6_counterexample :
    OutputEvent.probeLine 1 1 1000 ∈
      (ping ⟨"ws:a", 1, 1⟩
        (fun _ => ⟨Except.ok (), [(Except.ok (Message.pong [1]), 1000000)]⟩)
        (Except.ok ())).2.output ∧
    displayedFracDigits (OutputEvent.probeLine 1 1 1000) = [defaultFracDigits 1000] ∧
    defaultFracDigits 1000 = [] ∧
    (defaultFracDigits 1000).length ≠ 2 :=
  ⟨by decide, rfl, by decide, by decide⟩

/-- C6 amended: only the Min/Avg/Max values of the summary line are
printed with exactly 2-decimal precision; the per-probe latency line
uses the default float Display, which shows the exact microsecond-
derived value with between 0 and 3 fractional digits (trailing zeros
omitted).  All displayed values derive from the microsecond reading of a
nanosecond-resolution measurement. -/
theorem claim6_display_precision (i c n mn av mx micros : Nat) :
    displayedFracDigits (OutputEvent.probeLine i c micros) = [defaultFracDigits micros] ∧
    displayedFracDigits (OutputEvent.statsLine n mn av mx) =
      [fixed2FracDigits mn, fixed2FracDigits av, fixed2FracDigits mx] ∧
    (fixed2FracDigits micros).length = 2 ∧
    (defaultFracDigits micros).length ≤ 3 := by
  refine ⟨rfl, rfl, rfl, ?_⟩
  have h1 : ((fracPart3 micros).reverse.dropWhile (fun d => d == 0)).length ≤
      (fracPart3 micros).reverse.length := length_dropWhile_le _ _
  have h2 : (fracPart3 micros).reverse.length = 3 := by simp [fracPart3]
  simp only [defaultFracDigits, stripTrailingZeros, List.length_reverse]
  omega

/-- C7: the compression flow builds its single handshake request with the
Sec-WebSocket-Extensions: permessage-deflate header among the seven it
sets, sends exactly one close frame and no other message, and reports
the response extension header — printing its value when present and the
no-extensions line when absent. -/
theorem claim7_compression (url host key : String) (resp : List (String × String)) :
    getHeader (buildCompressionRequest url host key).headers "Sec-WebSocket-Extensions" =
      some "permessage-deflate" ∧
    (compression url host key resp (Except.ok ())).2.1 = [Message.close] ∧
    (∀ v, getHeader resp "Sec-WebSocket-Extensions" = some v →
      (compression url host key resp (Except.ok ())).2.2 =
        [CompEvent.connected url, CompEvent.connectionClosed, CompEvent.extensionsLine v]) ∧
    (getHeader resp "Sec-WebSocket-Extensions" = none →
      (compression url host key resp (Except.ok ())).2.2 =
        [CompEvent.connected url, CompEvent.connectionClosed, CompEvent.noExtensionsLine]) := by
  refine ⟨rfl, ?_, ?_, ?_⟩
  · simp only [compression]
    rcases hg : getHeader resp "Sec-WebSocket-Extensions" with _ | v
    · rfl
    · rfl
  · intro v hv
    simp only [compression, hv]
  · intro hn
    simp only [compression, hn]

/-- C7 witness: against a response carrying the permessage-deflate
extension header, the flow sends one close frame and prints the header
value. -/
theorem claim7_witness :
    getHeader (buildCompressionRequest "ws:a" "localhost" "k").headers
      "Sec-WebSocket-Extensions" = some "permessage-deflate" ∧
    (compression "ws:a" "localhost" "k" [("Sec-WebSocket-Extensions", "permessage-deflate")]
      (Except.ok ())).2.1 = [Message.close] ∧
    (compression "ws:a" "localhost" "k" [("Sec-WebSocket-Extensions", "permessage-deflate")]
      (Except.ok ())).2.2 =
      [CompEvent.connected "ws:a", CompEvent.connectionClosed,
       CompEvent.extensionsLine "permessage-deflate"] :=
  ⟨(claim7_compression "ws:a" "localhost" "k"
      [("Sec-WebSocket-Extensions", "permessage-deflate")]).1,
   (claim7_compression "ws:a" "localhost" "k"
      [("Sec-WebSocket-Extensions", "permessage-deflate")]).2.1,
   (claim7_compression "ws:a" "localhost" "k"
      [("Sec-WebSocket-Extensions", "permessage-deflate")]).2.2.1
     "permessage-deflate" (by decide)⟩

end Wst
